import Mathlib

/-!
# BLEU score pipeline: shallow embedding and verification

This file embeds the BLEU-score computation of `01_nlp_evals/bleu_score.ipynb`
(functions `preprocess_text`, `n_gram_precision`, `brevity_penalty`,
`bleu_score_sentence`) into Lean and proves the documented properties.

Modelling conventions:
* Python `list[str]` is `List String`; an n-gram (Python tuple of tokens) is a
  `List String` used as a key with structural equality.
* A Python `Counter` built from a list `l` is represented by the list itself,
  with lookup `l.count g`; iteration over its keys is iteration over `l.dedup`.
* Python `int` arguments that the code compares against 1 are `Int`.
* Python exceptions (`ValueError`, `ZeroDivisionError`, `min` on an empty
  sequence) are `Except String` errors carrying the corresponding message.
* Python floats are modelled as exact ℝ (with ℚ for the intermediate exact
  ratios p_n/total); `math.exp`/`math.log`/`np.exp` are `Real.exp`/`Real.log`.
* `str.isalnum`/`str.lower` are modelled by `Char.isAlphanum`/`Char.toLower`
  (the ASCII fragment, which covers all inputs appearing in the repository).
-/

namespace Bleu

/-- Auxiliary recursion for `str_split_ws`: `acc` holds the characters of the
current in-progress word in reverse order. -/
def strSplitAux : List Char → List Char → List String
  | [], acc => if acc.isEmpty then [] else [String.mk acc.reverse]
  | c :: cs, acc =>
    if c.isWhitespace then
      if acc.isEmpty then strSplitAux cs []
      else String.mk acc.reverse :: strSplitAux cs []
    else strSplitAux cs (c :: acc)

/-- Model of Python `sentence.split()` (no argument): split on runs of
whitespace, discarding empty words. -/
def str_split_ws (s : String) : List String :=
  strSplitAux s.data []

/-- Model of the word cleanup in `preprocess_text`:
`"".join(char.lower() for char in word if char.isalnum())` — keep the
alphanumeric characters of the word, lowercased, in order. -/
def clean_word (word : String) : String :=
  String.mk ((word.data.filter Char.isAlphanum).map Char.toLower)

/-- `preprocess_text` from the notebook, on an argument that already is a list
of strings (the `type(sentences) == list` runtime check necessarily passes):
`[[clean(word) for word in sentence.split()] for sentence in sentences]`. -/
def preprocess_text (sentences : List String) : List (List String) :=
  sentences.map (fun sentence => (str_split_ws sentence).map clean_word)

/-- The dynamically-typed argument of `preprocess_text` as callers can supply
it: either a bare string (the mistake the runtime check catches) or a list of
strings. -/
inductive PySentences where
  | str (s : String)
  | list (l : List String)

/-- `preprocess_text` including its dynamic `type(sentences) == list` check:
a bare string is not a `list`, so it raises
`ValueError("Expecting a list of strings as input.")`; a list of strings
passes the check and is processed. -/
def preprocess_text_dyn : PySentences → Except String (List (List String))
  | .str _ => .error "Expecting a list of strings as input."
  | .list l => .ok (preprocess_text l)

/-- The list of n-grams of a sentence, one per window:
`[tuple(s[i:i+n]) for i in range(len(s)-n+1)]`. The `Nat` count
`s.length + 1 - m` equals Python's `max(0, len(s) - n + 1)` window count. -/
def n_grams_list (s : List String) (m : Nat) : List (List String) :=
  (List.range (s.length + 1 - m)).map (fun i => (s.drop i).take m)

/-- One step of the loop building `max_reference_n_grams`: for each n-gram
that occurs in this reference, set the stored count to the max of the stored
count and this reference's count. Other keys are untouched. -/
def ref_max_step (m : Nat) (acc : List String → Nat) (reference : List String) :
    List String → Nat :=
  fun g =>
    if g ∈ n_grams_list reference m then
      max (acc g) ((n_grams_list reference m).count g)
    else acc g

/-- `max_reference_n_grams` from `n_gram_precision`: starts from the empty
`Counter()` (count 0 everywhere) and folds `ref_max_step` over the
references in order. -/
def max_reference_n_grams (references : List (List String)) (m : Nat) :
    List String → Nat :=
  references.foldl (ref_max_step m) (fun _ => 0)

/-- Numerator of `n_gram_precision`: `sum(clipped_counts.values())`, where
`clipped_counts = {ng: min(count, max_reference_n_grams[ng]) for ng, count in
candidate_n_grams.items()}` — the distinct candidate n-grams are
`(n_grams_list candidate m).dedup`. -/
def sum_clipped_counts (candidate : List String) (references : List (List String))
    (m : Nat) : Nat :=
  ((n_grams_list candidate m).dedup.map
    (fun g => min ((n_grams_list candidate m).count g)
                  (max_reference_n_grams references m g))).sum

/-- Denominator of `n_gram_precision`: `sum(candidate_n_grams.values())`,
the total (non-distinct) candidate n-gram count. -/
def sum_candidate_counts (candidate : List String) (m : Nat) : Nat :=
  ((n_grams_list candidate m).dedup.map
    (fun g => (n_grams_list candidate m).count g)).sum

/-- `n_gram_precision` from the notebook: raises
`ValueError("n must be greater or equal 1.")` when `n < 1`, otherwise returns
the pair (clipped count, total count). -/
def n_gram_precision (candidate : List String) (references : List (List String))
    (n : Int) : Except String (Nat × Nat) :=
  if n < 1 then .error "n must be greater or equal 1."
  else .ok (sum_clipped_counts candidate references n.toNat,
            sum_candidate_counts candidate n.toNat)

/-- `brevity_penalty` from the notebook. `r` is
`min(len(reference) for reference in references)`, which raises on an empty
`references`; `r / c` raises `ZeroDivisionError` when `c = 0` (this branch is
only reached when `c ≤ r`, since `c > r` returns first). -/
noncomputable def brevity_penalty (candidate : List String)
    (references : List (List String)) : Except String ℝ :=
  match references with
  | [] => .error "min() arg is an empty sequence"
  | ref :: rest =>
    let c := candidate.length
    let r := rest.foldl (fun acc reference => min acc reference.length) ref.length
    if c > r then .ok 1
    else if c = 0 then .error "division by zero"
    else .ok (Real.exp (1 - (r : ℝ) / (c : ℝ)))

/-- The geometric mean over the strictly positive precisions:
`np.exp(np.mean([math.log(p) for p in precisions if p > 0]))`. -/
noncomputable def geometric_mean_pos (precisions : List ℚ) : ℝ :=
  Real.exp
    (((precisions.filter (fun p => decide (0 < p))).map
        (fun p => Real.log (p : ℝ))).sum /
      ((precisions.filter (fun p => decide (0 < p))).length : ℝ))

/-- `bleu_score_sentence` from the notebook. The order loop
`for n in range(1, max_n+1)` is `List.range max_n.toNat` with `n = k + 1`;
each ratio is `p_n / total if total > 0 else 0`, kept exact in ℚ. -/
noncomputable def bleu_score_sentence (candidate_seq : String)
    (references_seqs : List String) (max_n : Int) : Except String ℝ := do
  let candidate := (preprocess_text [candidate_seq]).headD []
  let references := preprocess_text references_seqs
  let precisions ← (List.range max_n.toNat).mapM (fun (k : Nat) =>
    (n_gram_precision candidate references ((k : Int) + 1)).map
      (fun pt => if pt.2 > 0 then ((pt.1 : ℚ) / (pt.2 : ℚ)) else (0 : ℚ)))
  if precisions.all (fun p => p == 0) then
    return 0
  else
    let bp ← brevity_penalty candidate references
    return bp * geometric_mean_pos precisions

/-- Candidate sentence of the classic worked example (Papineni et al.,
example 1), as tokenized by `preprocess_text` in the notebook's test cell. -/
def classic_candidate : List String :=
  (preprocess_text ["It is a guide to action which ensures that the military always obeys the commands of the party."]).headD []

/-- The three reference sentences of the classic worked example, tokenized. -/
def classic_references : List (List String) :=
  preprocess_text
    ["It is a guide to action that ensures that the military will forever heed Party commands.",
     "It is the guiding principle which guarantees the military forces always being under the command of the Party.",
     "It is the practical guide for the army always to heed the directions of the party."]

/-- The word cleanup as §4.1 of the spec words it: every character is
case-folded and every non-alphanumeric character is dropped — each character
contributes its lowercased form exactly when it is alphanumeric. -/
def clean_word_spec (word : String) : String :=
  String.mk (word.data.filterMap
    (fun c => if Char.isAlphanum c then some (Char.toLower c) else none))

/-- §4.4 step 2 for one order: the precision fraction at order k + 1 as an
exact ratio, defined as 0 when the denominator is 0. -/
def ratio_at_order (candidate : List String) (references : List (List String))
    (k : Nat) : ℚ :=
  if sum_candidate_counts candidate (k + 1) > 0 then
    ((sum_clipped_counts candidate references (k + 1) : ℚ) /
      (sum_candidate_counts candidate (k + 1) : ℚ))
  else 0

/-- §4.4 step 2: the precision ratios for orders 1..max_n in order. -/
def precision_ratios (candidate : List String)
    (references : List (List String)) (max_n : Int) : List ℚ :=
  (List.range max_n.toNat).map (ratio_at_order candidate references)

/-- Pointwise value of one `max_reference_n_grams` loop step: the conditional
update is the same as taking the max with this reference's count, because the
count of an absent n-gram is zero. -/
theorem ref_max_step_apply (m : Nat) (acc : List String → Nat)
    (reference : List String) (g : List String) :
    ref_max_step m acc reference g =
      max (acc g) ((n_grams_list reference m).count g) := by
  unfold ref_max_step
  by_cases h : g ∈ n_grams_list reference m
  · simp [h]
  · simp [h, List.count_eq_zero.mpr h]

/-- The fold building `max_reference_n_grams`, evaluated at one n-gram, is a
fold of `max` over the per-reference counts. -/
theorem foldl_ref_max_apply (m : Nat) (references : List (List String))
    (acc : List String → Nat) (g : List String) :
    (references.foldl (ref_max_step m) acc) g =
      (references.map (fun r => (n_grams_list r m).count g)).foldl max (acc g) := by
  induction references generalizing acc with
  | nil => rfl
  | cons r rest ih =>
    simp only [List.foldl_cons, List.map_cons]
    rw [ih, ref_max_step_apply]

/-- `max_reference_n_grams` at one key is the maximum of that key's counts
across the references taken individually (zero when absent from all). -/
theorem max_reference_n_grams_apply (references : List (List String)) (m : Nat)
    (g : List String) :
    max_reference_n_grams references m g =
      (references.map (fun r => (n_grams_list r m).count g)).foldl max 0 := by
  unfold max_reference_n_grams
  exact foldl_ref_max_apply m references _ g

/-- There are `max(0, len(s) - m + 1)` n-gram windows. -/
theorem n_grams_list_length (s : List String) (m : Nat) :
    (n_grams_list s m).length = s.length + 1 - m := by
  simp [n_grams_list]

/-- `List.count` does not depend on the choice of a lawful `BEq` instance. -/
theorem count_inst_eq {α : Type _} [DecidableEq α] [inst : BEq α] [LawfulBEq α]
    (a : α) (l : List α) :
    @List.count α inst a l = @List.count α instBEqOfDecidableEq a l := by
  induction l with
  | nil => rfl
  | cons b bs ih =>
    rw [@List.count_cons α inst, @List.count_cons α instBEqOfDecidableEq, ih]
    simp [beq_iff_eq]

/-- The total candidate n-gram count is the number of windows. -/
theorem sum_candidate_counts_eq_length (candidate : List String) (m : Nat) :
    sum_candidate_counts candidate m = (n_grams_list candidate m).length := by
  unfold sum_candidate_counts
  rw [List.map_congr_left (fun x _ => count_inst_eq x (n_grams_list candidate m))]
  exact List.sum_map_count_dedup_eq_length _

/-- The clipped sum never exceeds the raw sum: clipping takes a `min` with the
candidate count, termwise. -/
theorem sum_clipped_le_sum_candidate (candidate : List String)
    (references : List (List String)) (m : Nat) :
    sum_clipped_counts candidate references m ≤ sum_candidate_counts candidate m := by
  unfold sum_clipped_counts sum_candidate_counts
  apply List.sum_le_sum
  intro g hg
  exact min_le_left _ _

/-- The notebook's filter-then-lower cleanup agrees with the spec's
per-character description. -/
theorem clean_word_eq_spec_aux (word : String) :
    clean_word word = clean_word_spec word := by
  unfold clean_word clean_word_spec
  congr 1
  induction word.data with
  | nil => rfl
  | cons c cs ih =>
    by_cases h : Char.isAlphanum c <;>
      simp [List.filter_cons, List.filterMap_cons, h, ih]

/-- `l.dedup` and `l` have the same associated `Finset`. -/
theorem dedup_toFinset (l : List (List String)) :
    l.dedup.toFinset = l.toFinset :=
  Finset.ext fun a => by simp [List.mem_toFinset, List.mem_dedup]

/-- Binding a successful `Except` computation just applies the continuation. -/
theorem except_bind_ok {ε α β : Type _} (x : α) (f : α → Except ε β) :
    (Except.ok x >>= f) = f x := rfl

/-- Mapping over a successful `Except` computation maps the value. -/
theorem except_map_ok {ε α β : Type _} (x : α) (f : α → β) :
    (Except.ok x : Except ε α).map f = .ok (f x) := rfl

/-- `n_gram_precision` at the order k + 1 coming from the loop
`for n in range(1, max_n+1)`: the guard passes and the pair is returned. -/
theorem n_gram_precision_succ (candidate : List String)
    (references : List (List String)) (k : Nat) :
    n_gram_precision candidate references ((k : Int) + 1) =
      .ok (sum_clipped_counts candidate references (k + 1),
           sum_candidate_counts candidate (k + 1)) := by
  unfold n_gram_precision
  rw [if_neg (by omega)]
  have h : ((k : Int) + 1).toNat = k + 1 := by omega
  rw [h]

/-- Evaluating the precision loop of `bleu_score_sentence`: the `mapM` over
the orders succeeds and produces exactly the per-order ratios. -/
theorem bleu_precisions_eval (candidate : List String)
    (references : List (List String)) (ks : List Nat) :
    (ks.mapM (fun (k : Nat) =>
      (n_gram_precision candidate references ((k : Int) + 1)).map
        (fun pt => if pt.2 > 0 then ((pt.1 : ℚ) / (pt.2 : ℚ)) else (0 : ℚ)))) =
      .ok (ks.map (ratio_at_order candidate references)) := by
  induction ks with
  | nil => rfl
  | cons k ks ih =>
    rw [List.mapM_cons, n_gram_precision_succ, except_map_ok, except_bind_ok,
      ih, except_bind_ok, List.map_cons]
    rfl

/-- With no reference at all, every clipping ceiling is 0, so the clipped
numerator is 0. -/
theorem sum_clipped_counts_nil_refs (candidate : List String) (m : Nat) :
    sum_clipped_counts candidate [] m = 0 := by
  unfold sum_clipped_counts max_reference_n_grams
  simp

/-- An empty candidate has no n-gram window of positive order. -/
theorem n_grams_list_nil (m : Nat) : n_grams_list [] (m + 1) = [] := by
  unfold n_grams_list
  have h : ([] : List String).length + 1 - (m + 1) = 0 := by simp
  rw [h]
  rfl

/-- An empty candidate has denominator 0 at every positive order. -/
theorem sum_candidate_counts_nil (m : Nat) :
    sum_candidate_counts [] (m + 1) = 0 := by
  unfold sum_candidate_counts
  rw [n_grams_list_nil]
  rfl

/-- A nonzero precision ratio at some order forces a non-empty candidate and
a non-empty reference collection. -/
theorem ratio_at_order_ne_zero_nonempty (candidate : List String)
    (references : List (List String)) (k : Nat)
    (h : ratio_at_order candidate references k ≠ 0) :
    candidate ≠ [] ∧ references ≠ [] := by
  constructor
  · intro hc
    subst hc
    unfold ratio_at_order at h
    rw [sum_candidate_counts_nil] at h
    simp at h
  · intro hr
    subst hr
    unfold ratio_at_order at h
    rw [sum_clipped_counts_nil_refs] at h
    simp at h

/-- With at least one reference and a non-empty candidate, the brevity
penalty computation succeeds. -/
theorem brevity_penalty_total (candidate : List String) (ref : List String)
    (rest : List (List String)) (hc : candidate ≠ []) :
    (brevity_penalty candidate (ref :: rest)).isOk = true := by
  have hlen : 0 < candidate.length := List.length_pos.mpr hc
  unfold brevity_penalty
  dsimp only
  by_cases hgt : candidate.length >
      rest.foldl (fun acc reference => min acc reference.length) ref.length
  · rw [if_pos hgt]; rfl
  · rw [if_neg hgt, if_neg (by omega)]; rfl

/-- C2: for every candidate, references and order n ≥ 1, `n_gram_precision`
returns a pair (numerator, denominator) with numerator ≤ denominator and
denominator = max(0, len(candidate) - n + 1); in particular the denominator
is 0 whenever the candidate is shorter than n. -/
theorem n_gram_precision_bounds (candidate : List String)
    (references : List (List String)) (n : Int) (hn : 1 ≤ n) :
    n_gram_precision candidate references n =
      .ok (sum_clipped_counts candidate references n.toNat,
           sum_candidate_counts candidate n.toNat) ∧
    sum_clipped_counts candidate references n.toNat ≤
      sum_candidate_counts candidate n.toNat ∧
    ((sum_candidate_counts candidate n.toNat : Int) =
      max 0 ((candidate.length : Int) - n + 1)) := by
  refine ⟨?_, sum_clipped_le_sum_candidate candidate references n.toNat, ?_⟩
  · unfold n_gram_precision
    rw [if_neg (by omega)]
  · rw [sum_candidate_counts_eq_length, n_grams_list_length]
    have hm : ((n.toNat : Int)) = n := Int.toNat_of_nonneg (by omega)
    rw [max_def]
    split_ifs <;> omega

/-- Witness for `n_gram_precision_bounds` at candidate ["a","b"], one
reference ["a"], order 1: the pair is (1, 2). -/
theorem n_gram_precision_bounds_witness :
    n_gram_precision ["a", "b"] [["a"]] 1 = .ok (1, 2) ∧
    (1 : Nat) ≤ 2 ∧ ((2 : Nat) : Int) = max 0 ((2 : Int) - 1 + 1) :=
  ⟨(n_gram_precision_bounds ["a", "b"] [["a"]] 1 (by decide)).1.trans (by rfl),
   by decide, by decide⟩

/-- C9: `n_gram_precision` raises `ValueError` exactly when n < 1, and for
every n ≥ 1 returns a pair without raising. -/
theorem n_gram_precision_order_guard (candidate : List String)
    (references : List (List String)) (n : Int) :
    (n < 1 →
      n_gram_precision candidate references n =
        .error "n must be greater or equal 1.") ∧
    (1 ≤ n →
      n_gram_precision candidate references n =
        .ok (sum_clipped_counts candidate references n.toNat,
             sum_candidate_counts candidate n.toNat)) := by
  constructor
  · intro h
    unfold n_gram_precision
    rw [if_pos h]
  · intro h
    unfold n_gram_precision
    rw [if_neg (by omega)]

/-- Witness for `n_gram_precision_order_guard`: order 0 raises, order 1 (and
also a negative order raising) behave as stated on concrete inputs. -/
theorem n_gram_precision_order_guard_witness :
    n_gram_precision ["a"] [["a"]] 0 = .error "n must be greater or equal 1." ∧
    n_gram_precision ["a"] [["a"]] (-2) = .error "n must be greater or equal 1." ∧
    n_gram_precision ["a"] [["a"]] 1 = .ok (1, 1) :=
  ⟨(n_gram_precision_order_guard ["a"] [["a"]] 0).1 (by decide),
   (n_gram_precision_order_guard ["a"] [["a"]] (-2)).1 (by decide),
   ((n_gram_precision_order_guard ["a"] [["a"]] 1).2 (by decide)).trans (by rfl)⟩

/-- C5: `n_gram_precision` is invariant under any permutation of the
reference collection. -/
theorem n_gram_precision_perm_invariant (candidate : List String) (n : Int)
    (references references' : List (List String))
    (hperm : references.Perm references') :
    n_gram_precision candidate references n =
      n_gram_precision candidate references' n := by
  unfold n_gram_precision
  by_cases h : n < 1
  · rw [if_pos h, if_pos h]
  · rw [if_neg h, if_neg h]
    have key : ∀ g, max_reference_n_grams references n.toNat g =
        max_reference_n_grams references' n.toNat g := by
      intro g
      rw [max_reference_n_grams_apply, max_reference_n_grams_apply]
      haveI : RightCommutative (fun a b : Nat => max a b) :=
        ⟨fun b a₁ a₂ => Max.right_comm b a₁ a₂⟩
      exact (hperm.map (fun r => (n_grams_list r n.toNat).count g)).foldl_eq 0
    unfold sum_clipped_counts
    rw [List.map_congr_left (fun g _ => by rw [key g])]

/-- Witness for `n_gram_precision_perm_invariant` on a concrete swap of two
references. -/
theorem n_gram_precision_perm_invariant_witness :
    n_gram_precision ["a", "b"] [["a"], ["b", "b"]] 1 =
      n_gram_precision ["a", "b"] [["b", "b"], ["a"]] 1 :=
  n_gram_precision_perm_invariant ["a", "b"] 1 [["a"], ["b", "b"]]
    [["b", "b"], ["a"]] (by decide)

/-- C4: for a non-empty candidate and non-empty references, `brevity_penalty`
returns exactly 1 when the candidate length exceeds the minimum reference
length r, and exp(1 - r/c) when c ≤ r. -/
theorem brevity_penalty_spec (candidate : List String)
    (references : List (List String)) (r : Nat) (hc : candidate ≠ [])
    (hr : (references.map List.length).min? = some r) :
    brevity_penalty candidate references =
      .ok (if r < candidate.length then 1
           else Real.exp (1 - (r : ℝ) / (candidate.length : ℝ))) := by
  match references with
  | [] => simp [List.min?] at hr
  | ref :: rest =>
    have hr' : r = (rest.map List.length).foldl min ref.length := by
      simpa [List.min?] using hr.symm
    have hfold : rest.foldl (fun acc reference => min acc reference.length)
        ref.length = (rest.map List.length).foldl min ref.length := by
      rw [List.foldl_map]
    have hlen : 0 < candidate.length := List.length_pos.mpr hc
    unfold brevity_penalty
    simp only [hfold, ← hr']
    by_cases hgt : candidate.length > r
    · rw [if_pos hgt, if_pos hgt]
    · rw [if_neg hgt, if_neg hgt, if_neg (by omega)]

/-- Witness for `brevity_penalty_spec`: the notebook's own test, candidate of
length 2 against references of minimum length 2; since 2 ≤ 2 the result is
exp(1 - 2/2) = exp 0 = 1. -/
theorem brevity_penalty_spec_witness :
    brevity_penalty ["A", "test"] [["A", "test"], ["Another", "test"]] =
      .ok 1 := by
  have h := brevity_penalty_spec ["A", "test"]
    [["A", "test"], ["Another", "test"]] 2 (by decide) (by rfl)
  rw [h]
  have h2 : (if (2 : Nat) < (["A", "test"] : List String).length then (1 : ℝ)
      else Real.exp (1 - ((2 : Nat) : ℝ) /
        (((["A", "test"] : List String).length : Nat) : ℝ))) = 1 := by
    norm_num [Real.exp_zero]
  rw [h2]

/-- C7: with at least one reference, `brevity_penalty` on a non-empty
candidate always returns a value, and on an empty candidate reaches the
division r/0 and fails with `ZeroDivisionError` instead of returning. -/
theorem brevity_penalty_safety (candidate : List String)
    (references : List (List String)) (href : references ≠ []) :
    (candidate ≠ [] → (brevity_penalty candidate references).isOk = true) ∧
    (candidate = [] →
      brevity_penalty candidate references = .error "division by zero") := by
  match references with
  | [] => exact absurd rfl href
  | ref :: rest =>
    constructor
    · intro hc
      exact brevity_penalty_total candidate ref rest hc
    · intro hc
      subst hc
      unfold brevity_penalty
      dsimp only
      rw [if_neg (by simp),
        if_pos (show ([] : List String).length = 0 from rfl)]

/-- Witness for `brevity_penalty_safety`: a length-1 candidate succeeds, the
empty candidate fails with the division-by-zero error. -/
theorem brevity_penalty_safety_witness :
    (brevity_penalty ["a"] [["x", "y"]]).isOk = true ∧
    brevity_penalty [] [["x"]] = .error "division by zero" :=
  ⟨(brevity_penalty_safety ["a"] [["x", "y"]] (by decide)).1 (by decide),
   (brevity_penalty_safety [] [["x"]] (by decide)).2 rfl⟩

/-- C6: `preprocess_text` returns one token sequence per input string in
order (it is a per-sentence map of whitespace splitting followed by the
spec's character cleanup); the round-trip example holds, and a word that is
pure punctuation is kept as an empty token. -/
theorem preprocess_text_spec (sentences : List String) :
    preprocess_text sentences =
      sentences.map (fun s => (str_split_ws s).map clean_word_spec) ∧
    preprocess_text ["Hello, this is some text."] =
      [["hello", "this", "is", "some", "text"]] ∧
    preprocess_text ["a", "?!.", "b c"] = [["a"], [""], ["b", "c"]] := by
  refine ⟨?_, by rfl, by rfl⟩
  unfold preprocess_text
  exact List.map_congr_left
    (fun s _ => List.map_congr_left (fun w _ => clean_word_eq_spec_aux w))

/-- C8: the dynamic type check of `preprocess_text` rejects a bare string
with the `ValueError` (it is not auto-wrapped), and accepts every list of
strings, returning its tokenization without error. -/
theorem preprocess_text_dyn_spec :
    (∀ s : String, preprocess_text_dyn (.str s) =
      .error "Expecting a list of strings as input.") ∧
    (∀ l : List String, preprocess_text_dyn (.list l) =
      .ok (preprocess_text l)) :=
  ⟨fun _ => rfl, fun _ => rfl⟩

/-- C1: for every order n ≥ 1, `n_gram_precision` returns the pair whose
denominator counts one per contiguous window of n candidate tokens and whose
numerator sums, over each distinct candidate n-gram, the candidate count
clipped at the maximum of that n-gram's counts across the references taken
individually (zero when absent from every reference); on the classic worked
example with three references and n = 1 it returns (17, 18). -/
theorem n_gram_precision_characterization (candidate : List String)
    (references : List (List String)) (n : Int) (hn : 1 ≤ n) :
    (n_gram_precision candidate references n =
      .ok (∑ g ∈ (n_grams_list candidate n.toNat).toFinset,
             min ((n_grams_list candidate n.toNat).count g)
               ((references.map
                  (fun r => (n_grams_list r n.toNat).count g)).foldl max 0),
           (n_grams_list candidate n.toNat).length)) ∧
    n_gram_precision classic_candidate classic_references 1 = .ok (17, 18) := by
  refine ⟨?_, by rfl⟩
  unfold n_gram_precision
  rw [if_neg (by omega)]
  congr 1
  refine Prod.ext ?_ (sum_candidate_counts_eq_length candidate n.toNat)
  show sum_clipped_counts candidate references n.toNat = _
  unfold sum_clipped_counts
  rw [List.map_congr_left
    (fun g _ => by rw [max_reference_n_grams_apply references n.toNat g])]
  rw [← List.sum_toFinset _ (List.nodup_dedup _),
    dedup_toFinset (n_grams_list candidate n.toNat)]

/-- Witness for `n_gram_precision_characterization`: its hypothesis is
discharged at order 1, yielding the classic worked example. -/
theorem n_gram_precision_characterization_witness :
    n_gram_precision classic_candidate classic_references 1 = .ok (17, 18) :=
  (n_gram_precision_characterization [] [] 1 (by decide)).2

/-- C3: `bleu_score_sentence` computes the per-order precision ratios, each
defined as 0 when its denominator is 0; when every ratio is exactly 0 it
returns exactly 0; otherwise the brevity penalty computation succeeds and
the result is the brevity penalty times the exponential of the arithmetic
mean of the natural logarithms of only the strictly positive ratios. -/
theorem bleu_score_sentence_spec (candidate_seq : String)
    (references_seqs : List String) (max_n : Int) (bp : ℝ) :
    ((∀ p ∈ precision_ratios ((preprocess_text [candidate_seq]).headD [])
        (preprocess_text references_seqs) max_n, p = 0) →
      bleu_score_sentence candidate_seq references_seqs max_n = .ok 0) ∧
    ((∃ p ∈ precision_ratios ((preprocess_text [candidate_seq]).headD [])
        (preprocess_text references_seqs) max_n, p ≠ 0) →
      (brevity_penalty ((preprocess_text [candidate_seq]).headD [])
        (preprocess_text references_seqs)).isOk = true) ∧
    ((∃ p ∈ precision_ratios ((preprocess_text [candidate_seq]).headD [])
        (preprocess_text references_seqs) max_n, p ≠ 0) →
      brevity_penalty ((preprocess_text [candidate_seq]).headD [])
        (preprocess_text references_seqs) = .ok bp →
      bleu_score_sentence candidate_seq references_seqs max_n =
        .ok (bp * geometric_mean_pos (precision_ratios
          ((preprocess_text [candidate_seq]).headD [])
          (preprocess_text references_seqs) max_n))) := by
  refine ⟨?_, ?_, ?_⟩
  · intro h
    unfold bleu_score_sentence
    dsimp only
    rw [bleu_precisions_eval, except_bind_ok]
    have hall : ((List.range max_n.toNat).map (ratio_at_order
        ((preprocess_text [candidate_seq]).headD [])
        (preprocess_text references_seqs))).all (fun p => p == 0) = true := by
      rw [List.all_eq_true]
      intro p hp
      rw [beq_iff_eq]
      exact h p hp
    rw [if_pos hall]
    rfl
  · rintro ⟨p, hp, hne⟩
    obtain ⟨k, _, hk⟩ := List.mem_map.mp hp
    obtain ⟨hc, hr⟩ := ratio_at_order_ne_zero_nonempty _ _ k (hk ▸ hne)
    match hrefs : preprocess_text references_seqs with
    | [] => rw [hrefs] at hr; exact absurd rfl hr
    | ref :: rest => exact brevity_penalty_total _ ref rest hc
  · rintro ⟨p, hp, hne⟩ hbp
    unfold bleu_score_sentence
    dsimp only
    rw [bleu_precisions_eval, except_bind_ok]
    have hall : ¬(((List.range max_n.toNat).map (ratio_at_order
        ((preprocess_text [candidate_seq]).headD [])
        (preprocess_text references_seqs))).all (fun p => p == 0) = true) := by
      rw [List.all_eq_true]
      intro hforall
      exact hne (by simpa using hforall p hp)
    rw [if_neg hall, hbp, except_bind_ok]
    rfl

/-- Witness for `bleu_score_sentence_spec`: with no shared unigram the score
is exactly 0; with a perfect one-token match the ratios are not all zero,
the brevity penalty is defined (it is 1), and the score is the stated
product. -/
theorem bleu_score_sentence_spec_witness :
    bleu_score_sentence "b" ["a"] 1 = .ok 0 ∧
    (brevity_penalty ((preprocess_text ["a"]).headD [])
      (preprocess_text ["a"])).isOk = true ∧
    bleu_score_sentence "a" ["a"] 1 =
      .ok (1 * geometric_mean_pos (precision_ratios
        ((preprocess_text ["a"]).headD []) (preprocess_text ["a"]) 1)) := by
  have hbp : brevity_penalty ((preprocess_text ["a"]).headD [])
      (preprocess_text ["a"]) = .ok 1 := by
    have hc : (preprocess_text ["a"]).headD [] = ["a"] := rfl
    have hr : preprocess_text ["a"] = [["a"]] := rfl
    rw [hc, hr]
    unfold brevity_penalty
    dsimp only
    rw [if_neg (by decide), if_neg (by decide)]
    congr 1
    norm_num [Real.exp_zero]
  have hz : ∀ p ∈ precision_ratios ((preprocess_text ["b"]).headD [])
      (preprocess_text ["a"]) 1, p = 0 := by
    intro p hp
    have he : precision_ratios ((preprocess_text ["b"]).headD [])
        (preprocess_text ["a"]) 1 = [ratio_at_order ["b"] [["a"]] 0] := rfl
    rw [he, List.mem_singleton] at hp
    subst hp
    unfold ratio_at_order
    have hnum : sum_clipped_counts ["b"] [["a"]] (0 + 1) = 0 := rfl
    have hden : sum_candidate_counts ["b"] (0 + 1) = 1 := rfl
    rw [hnum, hden]
    norm_num
  have hpos : ∃ p ∈ precision_ratios ((preprocess_text ["a"]).headD [])
      (preprocess_text ["a"]) 1, p ≠ 0 := by
    refine ⟨ratio_at_order ["a"] [["a"]] 0, ?_, ?_⟩
    · have he : precision_ratios ((preprocess_text ["a"]).headD [])
          (preprocess_text ["a"]) 1 = [ratio_at_order ["a"] [["a"]] 0] := rfl
      rw [he]
      exact List.mem_singleton.mpr rfl
    · unfold ratio_at_order
      have hnum : sum_clipped_counts ["a"] [["a"]] (0 + 1) = 1 := rfl
      have hden : sum_candidate_counts ["a"] (0 + 1) = 1 := rfl
      rw [hnum, hden]
      norm_num
  exact ⟨(bleu_score_sentence_spec "b" ["a"] 1 0).1 hz,
    (bleu_score_sentence_spec "a" ["a"] 1 0).2.1 hpos,
    (bleu_score_sentence_spec "a" ["a"] 1 1).2.2 hpos hbp⟩

/-- C10: calling `bleu_score_sentence` with an order below 1 returns 0
without any error: the order loop is empty, so the all-zero short circuit
holds vacuously and neither the precision counter nor the brevity penalty is
ever consulted. -/
theorem bleu_score_sentence_low_order (candidate_seq : String)
    (references_seqs : List String) (max_n : Int) (h : max_n < 1) :
    bleu_score_sentence candidate_seq references_seqs max_n = .ok 0 := by
  unfold bleu_score_sentence
  dsimp only
  have h0 : max_n.toNat = 0 := by omega
  rw [h0]
  rfl

/-- Witness for `bleu_score_sentence_low_order` at orders 0 and -3. -/
theorem bleu_score_sentence_low_order_witness :
    bleu_score_sentence "a" ["a"] 0 = .ok 0 ∧
    bleu_score_sentence "a" ["a"] (-3) = .ok 0 :=
  ⟨bleu_score_sentence_low_order "a" ["a"] 0 (by decide),
   bleu_score_sentence_low_order "a" ["a"] (-3) (by decide)⟩

end Bleu
